import Mathlib

/-!
Verification of the streaming I/O core of the B100 device driver
(`host/lib/usrp/b100/io_impl.cpp`) against its natural-language
specification.

The source is shallowly embedded: the `bounded_buffer` FIFO becomes a
`List` with an explicit capacity, the receive demultiplexer's loop becomes
structural recursion over the finite list of buffers the transport will
deliver before timing out (a `none` from the transport is modelled by that
list running out), and `size_t` arithmetic is `Nat` arithmetic reduced
modulo `2 ^ 64` where the source can wrap.
-/

namespace B100

/-- `bounded_buffer::push_with_pop_on_full` (uhd/transport/bounded_buffer.hpp,
used at io_impl.cpp:81 and io_impl.cpp:145): append to the back of the FIFO;
when the buffer already holds `cap` elements, first evict the oldest (front)
element.  The front of the list is the oldest element. -/
def push_with_pop_on_full (cap : Nat) (q : List α) (x : α) : List α :=
  if q.length = cap then q.tail ++ [x] else q ++ [x]

/-- A single `pop` from the FIFO (`pop_with_haste` / `pop_with_timed_wait`
when an element is available): remove and return the oldest element. -/
def pop (q : List α) : Option α × List α :=
  match q with
  | [] => (none, [])
  | x :: t => (some x, t)

/-- `n` successive pops: the list of elements obtained and the remaining queue. -/
def popAll : Nat → List α → List α × List α
  | 0, q => ([], q)
  | n + 1, q =>
    match pop q with
    | (none, q2) => ([], q2)
    | (some x, q2) =>
      let r := popAll n q2
      (x :: r.1, r.2)

/-- Push a whole arrival sequence, in order, into the FIFO. -/
def pushAll (cap : Nat) (q : List α) (xs : List α) : List α :=
  xs.foldl (push_with_pop_on_full cap) q

/-- Capacity of the asynchronous-message FIFO, from the `io_impl`
constructor argument `async_msg_fifo(100/*messages deep*/)` (io_impl.cpp:44). -/
def asyncMsgFifoCapacity : Nat := 100

/-! ## Receive demultiplexer (`b100_impl::io_impl::get_recv_buff`, io_impl.cpp:64-84) -/

/-- Width of `size_t` on the host: the redirect index
`const size_t rx_index = uhd::wtohx(vrt_hdr[1]) - B100_RX_SID_BASE` lives in
unsigned machine arithmetic, so subtraction wraps modulo `2 ^ 64`. -/
def sizeTMod : Nat := 2 ^ 64

/-- The target channel index computed at io_impl.cpp:77: the unsigned
difference between the packet's stream id (`uhd::wtohx(vrt_hdr[1])`) and the
receive SID base, wrapping modulo `2 ^ 64` when `sid < base`.
`B100_RX_SID_BASE` is defined in `b100_impl.hpp`, outside this translation
unit, so the base is kept as a parameter. -/
def rxIndexOf (sid base : Nat) : Nat :=
  (sizeTMod + sid - base) % sizeTMod

/-- A received raw buffer (`managed_recv_buffer`): `sid` is the 32-bit word
the demultiplexer reads from the VRT header (`uhd::wtohx(vrt_hdr[1])`),
`payload` stands for the rest of the buffer contents and serves to tell
buffers apart. -/
structure Buff where
  sid : Nat
  payload : Nat
deriving DecidableEq, Repr

/-- Result of one `get_recv_buff` call: the returned buffer (`none` on
timeout), the per-channel queues afterwards, the buffers the transport has
not yet delivered, and the stream ids reported by the
`UHD_MSG(error) << "Got a data packet with known SID ..."` branch. -/
structure DemuxResult where
  buff : Option Buff
  queues : List (List Buff)
  transport : List Buff
  errors : List Nat
deriving DecidableEq, Repr

/-- `b100_impl::io_impl::get_recv_buff(index, timeout)` (io_impl.cpp:64-84).
The transport is embedded as the finite list of buffers successive
`data_transport->get_recv_buff(timeout)` calls will deliver before one of
them times out; an exhausted list is the `buff.get() == NULL` timeout case.
Each loop iteration: pop channel `index`'s own queue if it is non-empty;
otherwise pull one buffer from the transport (returning `none` on timeout),
compute its target channel from the stream id, return it if it matches the
requested channel, push it onto the target channel's bounded queue (capacity
`cap`, evict-oldest-on-full) if the target is a valid channel, and otherwise
report the stream id and drop the buffer; then loop. -/
def get_recv_buff (base cap index : Nat) (queues : List (List Buff))
    (transport : List Buff) : DemuxResult :=
  if (queues.getD index []).isEmpty then
    match transport with
    | [] => ⟨none, queues, [], []⟩
    | b :: rest =>
      let rx := rxIndexOf b.sid base
      if rx = index then ⟨some b, queues, rest, []⟩
      else if rx < queues.length then
        get_recv_buff base cap index
          (queues.set rx (push_with_pop_on_full cap (queues.getD rx []) b)) rest
      else
        let r := get_recv_buff base cap index queues rest
        ⟨r.buff, r.queues, r.transport, b.sid :: r.errors⟩
  else
    ⟨(queues.getD index []).head?,
      queues.set index (queues.getD index []).tail, transport, []⟩

/-- One transport delivery with its blocking duration: a call
`data_transport->get_recv_buff(timeout)` blocks for `cost` time units before
handing over `buff`.  The per-direction spec bounds each such call by the
caller's `timeout`. -/
structure TimedPull where
  cost : Nat
  buff : Buff
deriving DecidableEq, Repr

/-- Result of a timed `get_recv_buff` run: returned buffer, queues,
undelivered transport pulls, and the total time spent blocked in
`data_transport->get_recv_buff` calls during the redirect loop. -/
structure TimedDemuxResult where
  buff : Option Buff
  queues : List (List Buff)
  transport : List TimedPull
  elapsed : Nat
deriving DecidableEq, Repr

/-- Time-annotated embedding of the same loop (io_impl.cpp:64-84): identical
control flow to `get_recv_buff`, additionally summing the blocking duration
of every transport call the loop makes.  When the pull list is exhausted the
final transport call blocks for the full `timeout` and yields null. -/
def get_recv_buff_timed (base cap index timeout : Nat)
    (queues : List (List Buff)) (transport : List TimedPull) :
    TimedDemuxResult :=
  if (queues.getD index []).isEmpty then
    match transport with
    | [] => ⟨none, queues, [], timeout⟩
    | p :: rest =>
      let rx := rxIndexOf p.buff.sid base
      if rx = index then ⟨some p.buff, queues, rest, p.cost⟩
      else if rx < queues.length then
        let r := get_recv_buff_timed base cap index timeout
          (queues.set rx (push_with_pop_on_full cap (queues.getD rx []) p.buff)) rest
        ⟨r.buff, r.queues, r.transport, p.cost + r.elapsed⟩
      else
        let r := get_recv_buff_timed base cap index timeout queues rest
        ⟨r.buff, r.queues, r.transport, p.cost + r.elapsed⟩
  else
    ⟨(queues.getD index []).head?,
      queues.set index (queues.getD index []).tail, transport, 0⟩

/-- Routing invariant of the per-channel queues: every buffer sitting in
channel `j`'s queue has a stream id that maps back to channel `j`. -/
def well_routed (base : Nat) (queues : List (List Buff)) : Prop :=
  ∀ j, j < queues.length → ∀ b ∈ queues.getD j [], rxIndexOf b.sid base = j

/-! ## Asynchronous event path (`b100_impl::handle_async_message`,
io_impl.cpp:125-156) -/

/-- Packet type field of a decoded VRT header.  The `vrt::if_packet_info_t`
enumeration lives in a header outside this repository; the spec only
distinguishes "data" from out-of-band ("extension", "context") packets. -/
inductive PacketType
  | data
  | ifExt
  | ifContext
deriving DecidableEq, Repr

/-- The fields of `vrt::if_packet_info_t` that `handle_async_message`
reads: stream id, packet type, the two timestamp-present flags and the
integer/fractional timestamp words. -/
structure IfPacketInfo where
  packet_type : PacketType
  sid : Nat
  has_tsi : Bool
  has_tsf : Bool
  tsi : Nat
  tsf : Nat
deriving DecidableEq, Repr

/-- `uhd::async_metadata_t` as filled in at io_impl.cpp:138-144: channel,
timestamp-valid flag, the timestamp inputs (`tsi`, `tsf`, fpga clock rate)
and the event code. -/
structure AsyncMetadata where
  channel : Nat
  has_time_spec : Bool
  time_full_secs : Nat
  time_tick_count : Nat
  tick_rate : Nat
  event_code : Nat
deriving DecidableEq, Repr

/-- Observable outcome of one `handle_async_message` invocation: the async
FIFO afterwards, the record pushed (if any), whether the catch block's
`UHD_MSG(error) << "Error (handle_async_message)"` report fired, and whether
the `UHD_MSG(error) << "Unknown async packet"` report fired. -/
structure HandlerResult where
  fifo : List AsyncMetadata
  pushed : Option AsyncMetadata
  decode_error_reported : Bool
  unknown_reported : Bool
deriving DecidableEq, Repr

/-- `b100_impl::handle_async_message` (io_impl.cpp:125-156).
`vrt::if_hdr_unpack_le` is compiled in another translation unit, so the
decode outcome is the input `decoded`: `.ok info` when it returns normally,
`.error ()` when it throws.  The C++ `catch` (io_impl.cpp:132-134) only
reports the failure and control falls through to the `if` at
io_impl.cpp:136, which reads the local `if_packet_info` struct holding
whatever values the failed unpack left in it — `residual` stands for those
leftover field values.  `txAsyncSid` is `B100_TX_ASYNC_SID`
(`b100_impl.hpp`), `ctxCode` the value of `sph::get_context_code(vrt_hdr,
if_packet_info)`, `tickRate` the value of
`_clock_ctrl->get_fpga_clock_rate()`. -/
def handle_async_message (txAsyncSid tickRate ctxCode : Nat)
    (decoded : Except Unit IfPacketInfo) (residual : IfPacketInfo)
    (fifo : List AsyncMetadata) : HandlerResult :=
  let failed := match decoded with | .ok _ => false | .error _ => true
  let info := match decoded with | .ok i => i | .error _ => residual
  if info.sid = txAsyncSid ∧ info.packet_type ≠ PacketType.data then
    let metadata : AsyncMetadata :=
      ⟨0, info.has_tsi && info.has_tsf, info.tsi, info.tsf, tickRate, ctxCode⟩
    ⟨push_with_pop_on_full asyncMsgFifoCapacity fifo metadata,
      some metadata, failed, false⟩
  else
    ⟨fifo, none, failed, true⟩

/-! ## Subdev spec updates (`b100_impl::update_rx_subdev_spec` /
`update_tx_subdev_spec`, io_impl.cpp:175-222) -/

/-- One entry of a `uhd::usrp::subdev_spec_t`: daughterboard name and
sub-device name. -/
structure SubdevPair where
  db_name : String
  sd_name : String
deriving DecidableEq, Repr

/-- The property-tree path
`"/mboards/0/dboards" / db_name / "rx_frontends" / sd_name / "connection"`
read at io_impl.cpp:185. -/
def rx_fe_conn_path (e : SubdevPair) : List String :=
  ["mboards", "0", "dboards", e.db_name, "rx_frontends", e.sd_name,
    "connection"]

/-- The property-tree path
`"/mboards/0/dboards" / db_name / "tx_frontends" / sd_name / "connection"`
read at io_impl.cpp:210. -/
def tx_fe_conn_path (e : SubdevPair) : List String :=
  ["mboards", "0", "dboards", e.db_name, "tx_frontends", e.sd_name,
    "connection"]

/-- Modelled from the spec: `validate_subdev_spec` is only declared here
(`validate_subdev_spec.hpp`); its implementation is not under `src/`.
Spec §4.7 step 2: "Validate `spec` against the device's available
sub-devices; fails with `InvalidSpecError` if a referenced
sub-device/connection does not exist."  `valid` is the device's
sub-device-existence predicate, so validation succeeds exactly when every
referenced entry exists. -/
def validate_subdev_spec (valid : SubdevPair → Bool)
    (spec : List SubdevPair) : Bool :=
  spec.all valid

inductive SpecError
  | invalidSpec
  | indexOutOfRange
deriving DecidableEq, Repr

/-- Observable outcome of `update_rx_subdev_spec`: the `(dsp index,
connection string)` pairs programmed by `_rx_dsps[i]->set_mux(conn)`
(io_impl.cpp:183-187) and the new channel count passed to
`recv_handler.resize` (io_impl.cpp:190). -/
structure RxUpdateResult where
  muxProgs : List (Nat × String)
  newSize : Nat
deriving DecidableEq, Repr

/-- Observable outcome of `update_tx_subdev_spec`: the connection strings
programmed into the single tx front-end mux by `_tx_fe->set_mux(conn)`
(io_impl.cpp:210-211, one `set_mux` call per invocation) and the new
channel count passed to `send_handler.resize` (io_impl.cpp:214). -/
structure TxUpdateResult where
  muxProgs : List String
  newSize : Nat
deriving DecidableEq, Repr

/-- `b100_impl::update_rx_subdev_spec` (io_impl.cpp:175-200): after
validation, for each entry `i` of the spec resolve that entry's
`rx_frontends` connection from the property tree and program DSP `i`'s mux
with it, then resize the receive channel set to `spec.size()`.  `tree` is
the device's property tree (path to stored string). -/
def update_rx_subdev_spec (tree : List String → String)
    (valid : SubdevPair → Bool) (spec : List SubdevPair) :
    Except SpecError RxUpdateResult :=
  if validate_subdev_spec valid spec then
    .ok ⟨spec.enum.map (fun ie => (ie.1, tree (rx_fe_conn_path ie.2))),
      spec.length⟩
  else .error .invalidSpec

/-- `b100_impl::update_tx_subdev_spec` (io_impl.cpp:202-222): after
validation it reads `spec[0]` unconditionally (io_impl.cpp:210) — on an
empty spec that first-entry access is out of range, modelled as
`.error .indexOutOfRange` — resolves that entry's `tx_frontends`
connection and programs the single tx front-end mux with it, then resizes
the send channel set to `spec.size()`. -/
def update_tx_subdev_spec (tree : List String → String)
    (valid : SubdevPair → Bool) (spec : List SubdevPair) :
    Except SpecError TxUpdateResult :=
  if validate_subdev_spec valid spec then
    match spec with
    | [] => .error .indexOutOfRange
    | e0 :: _ => .ok ⟨[tree (tx_fe_conn_path e0)], spec.length⟩
  else .error .invalidSpec

/-! ## Packet sizing (`get_max_send_samps_per_packet` io_impl.cpp:237-244,
`get_max_recv_samps_per_packet` io_impl.cpp:261-269) -/

/-- `b100_impl::get_max_send_samps_per_packet` (io_impl.cpp:237-244):
`hdr_size = max_if_hdr_words32 * sizeof(uint32) - sizeof(cid)` (class id
never used), `bpp = 2048 - hdr_size`, result `bpp / sample_size`.
`vrt::max_if_hdr_words32`, `sizeof(if_packet_info_t().cid)` and
`_tx_otw_type.get_sample_size()` come from headers outside this repository
and are parameters (in bytes; the word size 4 = `sizeof(boost::uint32_t)`). -/
def get_max_send_samps_per_packet
    (maxIfHdrWords32 cidSize sampleSize : Nat) : Nat :=
  let hdr_size := maxIfHdrWords32 * 4 - cidSize
  let bpp := 2048 - hdr_size
  bpp / sampleSize

/-- `b100_impl::get_max_recv_samps_per_packet` (io_impl.cpp:261-269): as
the send bound but with `hdr_size = max_if_hdr_words32 * sizeof(uint32) +
sizeof(tlr) - sizeof(cid)` (receive packets are forced to carry a
trailer). -/
def get_max_recv_samps_per_packet
    (maxIfHdrWords32 tlrSize cidSize sampleSize : Nat) : Nat :=
  let hdr_size := maxIfHdrWords32 * 4 + tlrSize - cidSize
  let bpp := 2048 - hdr_size
  bpp / sampleSize

/-- The spec's sizing formula (§4.4), stated in its own words:
`(transportPacketSize - headerOverhead) / sampleSize`. -/
def maxSamplesPerPacketSpec
    (transportPacketSize headerOverhead sampleSize : Nat) : Nat :=
  (transportPacketSize - headerOverhead) / sampleSize

/-! ## Supporting lemmas -/

theorem pushAll_of_length_le (cap : Nat) :
    ∀ (xs : List α) (q : List α), q.length + xs.length ≤ cap →
    pushAll cap q xs = q ++ xs := by
  intro xs
  induction xs with
  | nil => intro q _; simp [pushAll]
  | cons x t ih =>
    intro q hlen
    have hql : q.length ≠ cap := by simp at hlen; omega
    have hstep : push_with_pop_on_full cap q x = q ++ [x] := by
      simp [push_with_pop_on_full, hql]
    calc pushAll cap q (x :: t)
        = pushAll cap (q ++ [x]) t := by simp [pushAll, List.foldl, hstep]
      _ = (q ++ [x]) ++ t := by
          apply ih
          simp at hlen ⊢
          omega
      _ = q ++ x :: t := by simp

theorem pushAll_drop (cap : Nat) (hcap : 0 < cap) :
    ∀ (xs : List α) (q : List α), q.length ≤ cap →
    pushAll cap q xs = (q ++ xs).drop (q.length + xs.length - cap) := by
  intro xs
  induction xs with
  | nil =>
    intro q hq
    have hz : q.length - cap = 0 := by omega
    simp [pushAll, hz]
  | cons x t ih =>
    intro q hq
    by_cases hfull : q.length = cap
    · cases q with
      | nil => rw [← hfull] at hcap; simp at hcap
      | cons qh qt =>
        have hstep : push_with_pop_on_full cap (qh :: qt) x = qt ++ [x] := by
          simp [push_with_pop_on_full, hfull]
        have hlen2 : (qt ++ [x]).length ≤ cap := by
          simp at hfull ⊢; omega
        have h1 : (qt ++ [x]).length + t.length - cap = t.length := by
          simp at hfull ⊢; omega
        have h2 : (qh :: qt).length + (x :: t).length - cap = t.length + 1 := by
          simp at hfull ⊢; omega
        calc pushAll cap (qh :: qt) (x :: t)
            = pushAll cap (qt ++ [x]) t := by
              simp [pushAll, List.foldl, hstep]
          _ = ((qt ++ [x]) ++ t).drop ((qt ++ [x]).length + t.length - cap) :=
              ih _ hlen2
          _ = ((qh :: qt) ++ x :: t).drop ((qh :: qt).length + (x :: t).length - cap) := by
              rw [h1, h2]
              have hsplit : (qh :: qt) ++ x :: t = qh :: ((qt ++ [x]) ++ t) := by
                simp
              rw [hsplit, List.drop_succ_cons]
    · have hlt : q.length < cap := lt_of_le_of_ne hq hfull
      have hstep : push_with_pop_on_full cap q x = q ++ [x] := by
        simp [push_with_pop_on_full, hfull]
      calc pushAll cap q (x :: t)
          = pushAll cap (q ++ [x]) t := by
            simp [pushAll, List.foldl, hstep]
        _ = ((q ++ [x]) ++ t).drop ((q ++ [x]).length + t.length - cap) :=
            ih _ (by simp; omega)
        _ = (q ++ x :: t).drop (q.length + (x :: t).length - cap) := by
            have hsplit : (q ++ [x]) ++ t = q ++ x :: t := by simp
            rw [hsplit]
            congr 1
            simp
            omega

theorem popAll_eq_take_drop : ∀ (n : Nat) (q : List α),
    popAll n q = (q.take n, q.drop n) := by
  intro n
  induction n with
  | zero => intro q; simp [popAll]
  | succ m ih =>
    intro q
    cases q with
    | nil => simp [popAll, pop]
    | cons x t => simp [popAll, pop, ih]

theorem timed_step_pop {base cap index timeout : Nat}
    {queues : List (List Buff)} {a : Buff} {bs : List Buff}
    (transport : List TimedPull) (h : queues.getD index [] = a :: bs) :
    get_recv_buff_timed base cap index timeout queues transport
      = ⟨some a, queues.set index bs, transport, 0⟩ := by
  rw [get_recv_buff_timed.eq_def, h]
  rfl

theorem timed_step_timeout {base cap index timeout : Nat}
    {queues : List (List Buff)} (h : queues.getD index [] = []) :
    get_recv_buff_timed base cap index timeout queues []
      = ⟨none, queues, [], timeout⟩ := by
  rw [get_recv_buff_timed.eq_def, h]
  rfl

theorem timed_step_match {base cap index timeout : Nat}
    {queues : List (List Buff)} {p : TimedPull} (rest : List TimedPull)
    (h : queues.getD index [] = [])
    (hrx : rxIndexOf p.buff.sid base = index) :
    get_recv_buff_timed base cap index timeout queues (p :: rest)
      = ⟨some p.buff, queues, rest, p.cost⟩ := by
  rw [get_recv_buff_timed.eq_def, h]
  simp [hrx]

theorem timed_step_push {base cap index timeout : Nat}
    {queues : List (List Buff)} {p : TimedPull} (rest : List TimedPull)
    (h : queues.getD index [] = [])
    (hrx : rxIndexOf p.buff.sid base ≠ index)
    (hlt : rxIndexOf p.buff.sid base < queues.length) :
    get_recv_buff_timed base cap index timeout queues (p :: rest)
      = ⟨(get_recv_buff_timed base cap index timeout
            (queues.set (rxIndexOf p.buff.sid base)
              (push_with_pop_on_full cap
                (queues.getD (rxIndexOf p.buff.sid base) []) p.buff)) rest).buff,
          (get_recv_buff_timed base cap index timeout
            (queues.set (rxIndexOf p.buff.sid base)
              (push_with_pop_on_full cap
                (queues.getD (rxIndexOf p.buff.sid base) []) p.buff)) rest).queues,
          (get_recv_buff_timed base cap index timeout
            (queues.set (rxIndexOf p.buff.sid base)
              (push_with_pop_on_full cap
                (queues.getD (rxIndexOf p.buff.sid base) []) p.buff)) rest).transport,
          p.cost + (get_recv_buff_timed base cap index timeout
            (queues.set (rxIndexOf p.buff.sid base)
              (push_with_pop_on_full cap
                (queues.getD (rxIndexOf p.buff.sid base) []) p.buff)) rest).elapsed⟩ := by
  rw [get_recv_buff_timed.eq_def, h]
  simp [hrx, hlt]

theorem timed_step_error {base cap index timeout : Nat}
    {queues : List (List Buff)} {p : TimedPull} (rest : List TimedPull)
    (h : queues.getD index [] = [])
    (hrx : rxIndexOf p.buff.sid base ≠ index)
    (hge : ¬ rxIndexOf p.buff.sid base < queues.length) :
    get_recv_buff_timed base cap index timeout queues (p :: rest)
      = ⟨(get_recv_buff_timed base cap index timeout queues rest).buff,
          (get_recv_buff_timed base cap index timeout queues rest).queues,
          (get_recv_buff_timed base cap index timeout queues rest).transport,
          p.cost + (get_recv_buff_timed base cap index timeout queues
            rest).elapsed⟩ := by
  rw [get_recv_buff_timed.eq_def, h]
  simp [hrx, hge]

/-- Termination and time accounting for the redirect loop: when every
transport call blocks at most `timeout`, the total blocked time of one
`get_recv_buff` call is at most one `timeout` per transport call it makes
(at most `transport.length + 1` calls), and a `none` result occurs only when
the loop stopped at the transport's own timeout (nothing left undelivered,
no retry after the timing-out call). -/
theorem get_recv_buff_timed_bound (base cap index timeout : Nat) :
    ∀ (transport : List TimedPull) (queues : List (List Buff)),
    (∀ p ∈ transport, p.cost ≤ timeout) →
    (get_recv_buff_timed base cap index timeout queues transport).elapsed
      ≤ (transport.length + 1) * timeout ∧
    ((get_recv_buff_timed base cap index timeout queues transport).buff = none →
      (get_recv_buff_timed base cap index timeout queues transport).transport
        = []) := by
  intro transport
  induction transport with
  | nil =>
    intro queues _
    cases hq : queues.getD index [] with
    | nil => rw [timed_step_timeout hq]; simp
    | cons a bs => rw [timed_step_pop [] hq]; simp
  | cons p rest ih =>
    intro queues hcost
    have hp : p.cost ≤ timeout := hcost p (List.mem_cons_self _ _)
    have hrest : ∀ q ∈ rest, q.cost ≤ timeout :=
      fun q hqm => hcost q (List.mem_cons_of_mem _ hqm)
    cases hq : queues.getD index [] with
    | cons a bs => rw [timed_step_pop (p :: rest) hq]; simp
    | nil =>
      by_cases hrx : rxIndexOf p.buff.sid base = index
      · rw [timed_step_match rest hq hrx]
        constructor
        · calc p.cost ≤ timeout := hp
            _ ≤ (rest.length + 1 + 1) * timeout := Nat.le_mul_of_pos_left _ (by omega)
        · intro hnone; simp at hnone
      · by_cases hlt : rxIndexOf p.buff.sid base < queues.length
        · rw [timed_step_push rest hq hrx hlt]
          have ihr := ih (queues.set (rxIndexOf p.buff.sid base)
            (push_with_pop_on_full cap
              (queues.getD (rxIndexOf p.buff.sid base) []) p.buff)) hrest
          constructor
          · calc p.cost + _ ≤ timeout + (rest.length + 1) * timeout :=
                Nat.add_le_add hp ihr.1
              _ = (rest.length + 1 + 1) * timeout := by ring
          · exact ihr.2
        · rw [timed_step_error rest hq hrx hlt]
          have ihr := ih queues hrest
          constructor
          · calc p.cost + _ ≤ timeout + (rest.length + 1) * timeout :=
                Nat.add_le_add hp ihr.1
              _ = (rest.length + 1 + 1) * timeout := by ring
          · exact ihr.2

theorem getD_set_self {α : Type _} (l : List α) (i : Nat) (x d : α)
    (h : i < l.length) : (l.set i x).getD i d = x := by
  simp [List.getD_eq_getElem?_getD, List.getElem?_set_eq_of_lt x h]

theorem getD_set_ne {α : Type _} (l : List α) (i j : Nat) (x d : α)
    (h : i ≠ j) : (l.set i x).getD j d = l.getD j d := by
  simp [List.getD_eq_getElem?_getD, List.getElem?_set_ne h]

theorem mem_push_with_pop_on_full {cap : Nat} {q : List α} {x y : α}
    (h : y ∈ push_with_pop_on_full cap q x) : y ∈ q ∨ y = x := by
  unfold push_with_pop_on_full at h
  split at h
  · rcases List.mem_append.mp h with h1 | h1
    · exact Or.inl (List.tail_subset q h1)
    · exact Or.inr (List.mem_singleton.mp h1)
  · rcases List.mem_append.mp h with h1 | h1
    · exact Or.inl h1
    · exact Or.inr (List.mem_singleton.mp h1)

theorem well_routed_set_tail {base : Nat} {queues : List (List Buff)}
    {i : Nat} {bs : List Buff}
    (hwr : well_routed base queues) (hbs : ∀ b ∈ bs, b ∈ queues.getD i []) :
    well_routed base (queues.set i bs) := by
  intro j hj b hb
  rw [List.length_set] at hj
  by_cases hij : i = j
  · subst hij
    rw [getD_set_self queues i bs [] hj] at hb
    exact hwr i hj b (hbs b hb)
  · rw [getD_set_ne queues i j bs [] hij] at hb
    exact hwr j hj b hb

theorem get_recv_buff_step_pop {base cap index : Nat}
    {queues : List (List Buff)} {a : Buff} {bs : List Buff}
    (transport : List Buff) (h : queues.getD index [] = a :: bs) :
    get_recv_buff base cap index queues transport
      = ⟨some a, queues.set index bs, transport, []⟩ := by
  rw [get_recv_buff.eq_def, h]
  rfl

theorem get_recv_buff_step_timeout {base cap index : Nat}
    {queues : List (List Buff)} (h : queues.getD index [] = []) :
    get_recv_buff base cap index queues [] = ⟨none, queues, [], []⟩ := by
  rw [get_recv_buff.eq_def, h]
  rfl

theorem get_recv_buff_step_match {base cap index : Nat}
    {queues : List (List Buff)} {b : Buff} (rest : List Buff)
    (h : queues.getD index [] = []) (hrx : rxIndexOf b.sid base = index) :
    get_recv_buff base cap index queues (b :: rest)
      = ⟨some b, queues, rest, []⟩ := by
  rw [get_recv_buff.eq_def, h]
  simp [hrx]

theorem get_recv_buff_step_push {base cap index : Nat}
    {queues : List (List Buff)} {b : Buff} (rest : List Buff)
    (h : queues.getD index [] = []) (hrx : rxIndexOf b.sid base ≠ index)
    (hlt : rxIndexOf b.sid base < queues.length) :
    get_recv_buff base cap index queues (b :: rest)
      = get_recv_buff base cap index
          (queues.set (rxIndexOf b.sid base)
            (push_with_pop_on_full cap
              (queues.getD (rxIndexOf b.sid base) []) b)) rest := by
  rw [get_recv_buff.eq_def, h]
  simp [hrx, hlt]

theorem get_recv_buff_step_error {base cap index : Nat}
    {queues : List (List Buff)} {b : Buff} (rest : List Buff)
    (h : queues.getD index [] = []) (hrx : rxIndexOf b.sid base ≠ index)
    (hge : ¬ rxIndexOf b.sid base < queues.length) :
    get_recv_buff base cap index queues (b :: rest)
      = ⟨(get_recv_buff base cap index queues rest).buff,
          (get_recv_buff base cap index queues rest).queues,
          (get_recv_buff base cap index queues rest).transport,
          b.sid :: (get_recv_buff base cap index queues rest).errors⟩ := by
  rw [get_recv_buff.eq_def, h]
  simp [hrx, hge]

theorem well_routed_set_push {base : Nat} (cap : Nat)
    {queues : List (List Buff)} {j : Nat} {b : Buff}
    (hwr : well_routed base queues) (hj : j < queues.length)
    (hb : rxIndexOf b.sid base = j) :
    well_routed base
      (queues.set j (push_with_pop_on_full cap (queues.getD j []) b)) := by
  intro k hk b2 hb2
  rw [List.length_set] at hk
  by_cases hjk : j = k
  · subst hjk
    rw [getD_set_self queues j _ [] hj] at hb2
    rcases mem_push_with_pop_on_full hb2 with h1 | h1
    · exact hwr j hj b2 h1
    · subst h1; exact hb
  · rw [getD_set_ne queues j k _ [] hjk] at hb2
    exact hwr k hk b2 hb2

/-- Soundness of the redirect loop: starting from well-routed queues, the
buffer a call returns is always routed to the requested channel, the
routing invariant is preserved, and the number of channel queues never
changes. -/
theorem get_recv_buff_sound (base cap index : Nat) :
    ∀ (transport : List Buff) (queues : List (List Buff)),
    well_routed base queues → index < queues.length →
    (∀ b, (get_recv_buff base cap index queues transport).buff = some b →
        rxIndexOf b.sid base = index) ∧
    well_routed base (get_recv_buff base cap index queues transport).queues ∧
    (get_recv_buff base cap index queues transport).queues.length
      = queues.length := by
  intro transport
  induction transport with
  | nil =>
    intro queues hwr hidx
    cases hq : queues.getD index [] with
    | nil =>
      rw [get_recv_buff_step_timeout hq]
      exact ⟨by intro b hb; simp at hb, hwr, rfl⟩
    | cons a bs =>
      rw [get_recv_buff_step_pop [] hq]
      refine ⟨?_, ?_, by simp⟩
      · intro b hb
        simp at hb
        subst hb
        exact hwr index hidx _ (by rw [hq]; exact List.mem_cons_self _ _)
      · exact well_routed_set_tail hwr
          (by intro b hb; rw [hq]; exact List.mem_cons_of_mem a hb)
  | cons b rest ih =>
    intro queues hwr hidx
    cases hq : queues.getD index [] with
    | cons a bs =>
      rw [get_recv_buff_step_pop (b :: rest) hq]
      refine ⟨?_, ?_, by simp⟩
      · intro b2 hb2
        simp at hb2
        subst hb2
        exact hwr index hidx _ (by rw [hq]; exact List.mem_cons_self _ _)
      · exact well_routed_set_tail hwr
          (by intro b2 hb2; rw [hq]; exact List.mem_cons_of_mem a hb2)
    | nil =>
      by_cases hrx : rxIndexOf b.sid base = index
      · rw [get_recv_buff_step_match rest hq hrx]
        exact ⟨by intro b2 hb2; simp at hb2; subst hb2; exact hrx, hwr, rfl⟩
      · by_cases hlt : rxIndexOf b.sid base < queues.length
        · rw [get_recv_buff_step_push rest hq hrx hlt]
          have hwr2 := well_routed_set_push cap hwr hlt rfl
          have hidx2 : index < (queues.set (rxIndexOf b.sid base)
              (push_with_pop_on_full cap
                (queues.getD (rxIndexOf b.sid base) []) b)).length := by
            rw [List.length_set]; exact hidx
          have ihr := ih _ hwr2 hidx2
          refine ⟨ihr.1, ihr.2.1, ?_⟩
          rw [ihr.2.2, List.length_set]
        · rw [get_recv_buff_step_error rest hq hrx hlt]
          have ihr := ih queues hwr hidx
          exact ⟨ihr.1, ihr.2.1, ihr.2.2⟩

/-! ## Claim theorems -/

/-- Claim C1: for `get_recv_buff`, requesting channel 0 when the transport
delivers, in order, a packet for channel 1 and then one for channel 0
returns the second packet (the channel-1 packet is queued on channel 1's
queue), and a subsequent request for channel 1 returns that first packet
from its queue with the remaining transport untouched (no further transport
call).  In general, from well-routed queues the returned buffer is always
routed to the requested channel (a buffer destined for `j` is never
returned to a caller requesting `i ≠ j`), the routing invariant is
preserved, and a delivered buffer whose valid target channel differs from
the requested one is pushed onto that target channel's queue before the
loop continues. -/
theorem C1_recv_demux_routing (base cap index : Nat)
    (queues : List (List Buff)) (transport : List Buff)
    (hwr : well_routed base queues) (hidx : index < queues.length) :
    get_recv_buff 2 8 0 [[], []] [⟨3, 1⟩, ⟨2, 0⟩, ⟨2, 2⟩]
      = ⟨some ⟨2, 0⟩, [[], [⟨3, 1⟩]], [⟨2, 2⟩], []⟩ ∧
    get_recv_buff 2 8 1 [[], [⟨3, 1⟩]] [⟨2, 2⟩]
      = ⟨some ⟨3, 1⟩, [[], []], [⟨2, 2⟩], []⟩ ∧
    (∀ b, (get_recv_buff base cap index queues transport).buff = some b →
      rxIndexOf b.sid base = index) ∧
    well_routed base (get_recv_buff base cap index queues transport).queues ∧
    (∀ b rest, transport = b :: rest → queues.getD index [] = [] →
      rxIndexOf b.sid base ≠ index → rxIndexOf b.sid base < queues.length →
      get_recv_buff base cap index queues transport
        = get_recv_buff base cap index
            (queues.set (rxIndexOf b.sid base)
              (push_with_pop_on_full cap
                (queues.getD (rxIndexOf b.sid base) []) b))
            rest) := by
  have hs := get_recv_buff_sound base cap index transport queues hwr hidx
  refine ⟨by decide, by decide, hs.1, hs.2.1, ?_⟩
  intro b rest htr hq hne hlt
  subst htr
  exact get_recv_buff_step_push rest hq hne hlt

theorem C1_recv_demux_routing_witness :
    well_routed 2 [[], []] ∧ (0 < ([[], []] : List (List Buff)).length) ∧
    (∀ b, (get_recv_buff 2 8 0 [[], []] [⟨3, 1⟩, ⟨2, 0⟩, ⟨2, 2⟩]).buff
        = some b → rxIndexOf b.sid 2 = 0) ∧
    well_routed 2 (get_recv_buff 2 8 0 [[], []]
      [⟨3, 1⟩, ⟨2, 0⟩, ⟨2, 2⟩]).queues := by
  have hwr : well_routed 2 [[], []] := by
    intro j hj b hb
    exfalso
    have hjget : List.getD [[], []] j ([] : List Buff) = [] := by
      simp only [List.length_cons, List.length_nil] at hj
      interval_cases j <;> rfl
    rw [hjget] at hb
    simp at hb
  have h := C1_recv_demux_routing 2 8 0 [[], []]
    [⟨3, 1⟩, ⟨2, 0⟩, ⟨2, 2⟩] hwr (by decide)
  exact ⟨hwr, by decide, h.2.2.1, h.2.2.2.1⟩

/-- Claim C2 (code bug evaluation): the claim says a header-decode failure
drops the packet with no event record and no further processing of the
header fields.  In the source the `catch` at io_impl.cpp:132-134 only
reports the failure and does not return, so control falls through to the
`if` at io_impl.cpp:136, which reads the sid/type/timestamp fields of the
local `if_packet_info` struct even though the decode threw; if those
residual (partially-written / indeterminate) fields happen to match the
tx-async condition, an event record built from them is pushed.  Evaluated
here at such a failing input (`B100_TX_ASYNC_SID = 99` for concreteness):
the decode error is reported AND a record is still pushed to the FIFO. -/
theorem C2_decode_failure_falls_through :
    handle_async_message 99 64 1 (Except.error ())
      ⟨PacketType.ifContext, 99, true, true, 5, 7⟩ []
      = ⟨[⟨0, true, 5, 7, 64, 1⟩], some ⟨0, true, 5, 7, 64, 1⟩,
          true, false⟩ := by
  rfl

/-- Claim C3 counterexample: the claim (programming one hardware mux per
spec entry in BOTH directions) fails for `update_tx_subdev_spec` on a
two-entry spec: only `spec[0]`'s connection is resolved and programmed
(io_impl.cpp:210-211); the second entry's connection is never programmed
into any mux. -/
theorem C3_counterexample :
    ¬ (∀ r : TxUpdateResult,
        update_tx_subdev_spec
          (fun p => if p = tx_fe_conn_path ⟨"dbB", "sdX"⟩ then "connB"
            else "connA")
          (fun _ => true)
          [⟨"dbA", "sdX"⟩, ⟨"dbB", "sdX"⟩] = Except.ok r →
        ∀ i (hi : i < ([⟨"dbA", "sdX"⟩,
            (⟨"dbB", "sdX"⟩ : SubdevPair)] : List SubdevPair).length),
          (fun p => if p = tx_fe_conn_path ⟨"dbB", "sdX"⟩ then "connB"
            else "connA")
            (tx_fe_conn_path (List.get [⟨"dbA", "sdX"⟩, ⟨"dbB", "sdX"⟩]
              ⟨i, hi⟩)) ∈ r.muxProgs) := by
  intro h
  have h1 := h ⟨["connA"], 2⟩ rfl 1 (by decide)
  revert h1
  decide

/-- Claim C3 as amended: per direction the code behaves as follows.  For
the receive direction, for every entry `i` of a validated spec, entry `i`'s
`rx_frontends` connection is resolved from the property tree and receive
DSP `i`'s mux is programmed with it (one program per entry).  For the
transmit direction only the FIRST entry's `tx_frontends` connection is
resolved and programmed into the single tx front-end mux; later entries
are not consulted for mux programming. -/
theorem C3_amended_mux_programming (tree : List String → String)
    (valid : SubdevPair → Bool) (spec : List SubdevPair)
    (hv : validate_subdev_spec valid spec = true) :
    (∀ r, update_rx_subdev_spec tree valid spec = Except.ok r →
      r.muxProgs.length = spec.length ∧ r.newSize = spec.length ∧
      ∀ i (hi : i < r.muxProgs.length),
        r.muxProgs.get ⟨i, hi⟩
          = (i, tree (rx_fe_conn_path (spec.getD i ⟨"", ""⟩)))) ∧
    (∀ e0 rest, spec = e0 :: rest →
      update_tx_subdev_spec tree valid spec
        = Except.ok ⟨[tree (tx_fe_conn_path e0)], spec.length⟩) := by
  constructor
  · intro r hr
    rw [update_rx_subdev_spec, if_pos hv] at hr
    cases hr
    refine ⟨by simp [List.enum_length], by simp, ?_⟩
    intro i hi
    simp only [List.length_map, List.enum_length] at hi
    have hmap : (List.map (fun ie => (ie.1, tree (rx_fe_conn_path ie.2)))
        spec.enum).get ⟨i, by simp [List.enum_length]; exact hi⟩
        = (i, tree (rx_fe_conn_path (spec.get ⟨i, hi⟩))) := by
      simp [List.get_eq_getElem, List.getElem_map, List.getElem_enum]
    rw [List.get_eq_getElem] at hmap ⊢
    rw [hmap]
    have : spec.getD i ⟨"", ""⟩ = spec.get ⟨i, hi⟩ := by
      rw [List.getD_eq_getElem?_getD, List.getElem?_eq_getElem hi]
      rfl
    rw [this, List.get_eq_getElem]
  · intro e0 rest hspec
    subst hspec
    rw [update_tx_subdev_spec, if_pos hv]

theorem C3_amended_mux_programming_witness :
    validate_subdev_spec (fun _ => true)
      [⟨"dbA", "sdX"⟩, (⟨"dbB", "sdX"⟩ : SubdevPair)] = true ∧
    update_tx_subdev_spec (fun _ => "c") (fun _ => true)
      [⟨"dbA", "sdX"⟩, ⟨"dbB", "sdX"⟩] = Except.ok ⟨["c"], 2⟩ := by
  refine ⟨by decide, ?_⟩
  have h := (C3_amended_mux_programming (fun _ => "c") (fun _ => true)
    [⟨"dbA", "sdX"⟩, ⟨"dbB", "sdX"⟩] (by decide)).2
      ⟨"dbA", "sdX"⟩ [⟨"dbB", "sdX"⟩] rfl
  exact h

/-- Claim C4: the bounded asynchronous event FIFO has fixed capacity 100
(`async_msg_fifo(100)`, io_impl.cpp:44); `push_with_pop_on_full` is total
(never blocks, never fails) and evicts the oldest record when full, so
pushing `capacity + 1` records into the empty FIFO and popping `capacity`
times yields exactly the most recent `capacity` records in arrival order,
leaving the FIFO empty. -/
theorem C4_async_fifo_eviction (rs : List AsyncMetadata)
    (h : rs.length = asyncMsgFifoCapacity + 1) :
    asyncMsgFifoCapacity = 100 ∧
    popAll asyncMsgFifoCapacity (pushAll asyncMsgFifoCapacity [] rs)
      = (rs.drop 1, []) := by
  refine ⟨rfl, ?_⟩
  have hcap : 0 < asyncMsgFifoCapacity := by decide
  rw [pushAll_drop asyncMsgFifoCapacity hcap rs [] (by simp)]
  simp only [List.nil_append, List.length_nil, Nat.zero_add]
  rw [h]
  have h1 : asyncMsgFifoCapacity + 1 - asyncMsgFifoCapacity = 1 := by omega
  rw [h1, popAll_eq_take_drop]
  have hlen : (rs.drop 1).length = asyncMsgFifoCapacity := by
    simp [List.length_drop, h]
  rw [List.take_of_length_le (le_of_eq hlen),
    List.drop_eq_nil_of_le (le_of_eq hlen)]

theorem C4_async_fifo_eviction_witness :
    ((List.range (asyncMsgFifoCapacity + 1)).map
        (fun n => (⟨0, false, 0, 0, 0, n⟩ : AsyncMetadata))).length
      = asyncMsgFifoCapacity + 1 ∧
    popAll asyncMsgFifoCapacity
      (pushAll asyncMsgFifoCapacity []
        ((List.range (asyncMsgFifoCapacity + 1)).map
          (fun n => (⟨0, false, 0, 0, 0, n⟩ : AsyncMetadata))))
      = (((List.range (asyncMsgFifoCapacity + 1)).map
          (fun n => (⟨0, false, 0, 0, 0, n⟩ : AsyncMetadata))).drop 1, []) := by
  refine ⟨by simp, ?_⟩
  exact (C4_async_fifo_eviction _ (by simp)).2

/-- Claim C5: when the transport delivers a buffer whose computed target
channel is outside the valid range, the buffer is discarded (the queues
are passed on unchanged, the buffer is not returned), its stream id is
reported through the error message, and the loop continues with the rest
of the transport; the caller-visible result of the call is whatever the
continued loop produces (`DemuxResult` has no error outcome at all, so the
failure is never surfaced as an error result). -/
theorem C5_routing_error_discard (base cap index : Nat)
    (queues : List (List Buff)) (b : Buff) (rest : List Buff)
    (hq : queues.getD index [] = [])
    (hne : rxIndexOf b.sid base ≠ index)
    (hout : ¬ rxIndexOf b.sid base < queues.length) :
    get_recv_buff base cap index queues (b :: rest)
      = ⟨(get_recv_buff base cap index queues rest).buff,
          (get_recv_buff base cap index queues rest).queues,
          (get_recv_buff base cap index queues rest).transport,
          b.sid :: (get_recv_buff base cap index queues rest).errors⟩ := by
  exact get_recv_buff_step_error rest hq hne hout

theorem C5_routing_error_discard_witness :
    get_recv_buff 2 8 0 [[], []] [⟨7, 9⟩, ⟨2, 0⟩]
      = ⟨(get_recv_buff 2 8 0 [[], []] [⟨2, 0⟩]).buff,
          (get_recv_buff 2 8 0 [[], []] [⟨2, 0⟩]).queues,
          (get_recv_buff 2 8 0 [[], []] [⟨2, 0⟩]).transport,
          7 :: (get_recv_buff 2 8 0 [[], []] [⟨2, 0⟩]).errors⟩ := by
  exact C5_routing_error_discard 2 8 0 [[], []] ⟨7, 9⟩ [⟨2, 0⟩]
    rfl (by decide) (by decide)

/-- Claim C6 counterexample: the claim's time bound ("the total time spent
in the loop never exceeds the transport's own timeout budget") is false.
With `timeout = 10` and two transport pulls each blocking the full 10 (each
individually within the per-call budget), a call requesting channel 0 that
is first handed a channel-1 packet and then its own packet terminates
successfully but spends 20 > 10 time units blocked in transport calls. -/
theorem C6_counterexample :
    (∀ p ∈ ([⟨10, ⟨3, 1⟩⟩, ⟨10, ⟨2, 0⟩⟩] : List TimedPull), p.cost ≤ 10) ∧
    (get_recv_buff_timed 2 8 0 10 [[], []]
      [⟨10, ⟨3, 1⟩⟩, ⟨10, ⟨2, 0⟩⟩]).buff = some ⟨2, 0⟩ ∧
    (get_recv_buff_timed 2 8 0 10 [[], []]
      [⟨10, ⟨3, 1⟩⟩, ⟨10, ⟨2, 0⟩⟩]).elapsed = 20 ∧
    ¬ ((get_recv_buff_timed 2 8 0 10 [[], []]
      [⟨10, ⟨3, 1⟩⟩, ⟨10, ⟨2, 0⟩⟩]).elapsed ≤ 10) := by
  decide

/-- Claim C6 as amended: the redirect loop terminates once a matching
buffer is found or the transport itself times out — it never retries after
a transport timeout (a `none` result happens only with the delivery list
exhausted, i.e. at the transport's own timeout, and the loop stops there)
— and, each transport call blocking at most `timeout`, the total time
spent blocked is at most one `timeout` per transport call made (at most
`transport.length + 1` calls); the total may however span several
`timeout`-budgets when redirected packets keep arriving, one per call. -/
theorem C6_amended_loop_termination (base cap index timeout : Nat)
    (queues : List (List Buff)) (transport : List TimedPull)
    (hcost : ∀ p ∈ transport, p.cost ≤ timeout) :
    (get_recv_buff_timed base cap index timeout queues transport).elapsed
      ≤ (transport.length + 1) * timeout ∧
    ((get_recv_buff_timed base cap index timeout queues transport).buff
        = none →
      (get_recv_buff_timed base cap index timeout queues
        transport).transport = []) := by
  exact get_recv_buff_timed_bound base cap index timeout transport queues hcost

theorem C6_amended_loop_termination_witness :
    (∀ p ∈ ([⟨10, ⟨3, 1⟩⟩, ⟨10, ⟨2, 0⟩⟩] : List TimedPull), p.cost ≤ 10) ∧
    ((get_recv_buff_timed 2 8 0 10 [[], []]
        [⟨10, ⟨3, 1⟩⟩, ⟨10, ⟨2, 0⟩⟩]).elapsed
      ≤ (([⟨10, ⟨3, 1⟩⟩, ⟨10, ⟨2, 0⟩⟩] : List TimedPull).length + 1) * 10 ∧
    ((get_recv_buff_timed 2 8 0 10 [[], []]
        [⟨10, ⟨3, 1⟩⟩, ⟨10, ⟨2, 0⟩⟩]).buff = none →
      (get_recv_buff_timed 2 8 0 10 [[], []]
        [⟨10, ⟨3, 1⟩⟩, ⟨10, ⟨2, 0⟩⟩]).transport = [])) := by
  refine ⟨by decide, ?_⟩
  exact C6_amended_loop_termination 2 8 0 10 [[], []]
    [⟨10, ⟨3, 1⟩⟩, ⟨10, ⟨2, 0⟩⟩] (by decide)

/-- Claim C7: on a successful header decode, `handle_async_message` pushes
an async event record to the bounded FIFO if and only if the decoded
stream id equals the reserved transmit-async identifier and the packet
type is not data; the pushed record has channel 0, event code equal to the
packet's context code, and its timestamp is marked valid exactly when both
timestamp flags are set; any other sid/type combination produces no record,
leaves the FIFO unchanged and fires the unrecognized-async-packet report. -/
theorem C7_async_record_iff (txAsyncSid tickRate ctxCode : Nat)
    (info residual : IfPacketInfo) (fifo : List AsyncMetadata) :
    ((handle_async_message txAsyncSid tickRate ctxCode (Except.ok info)
        residual fifo).pushed.isSome
      ↔ (info.sid = txAsyncSid ∧ info.packet_type ≠ PacketType.data)) ∧
    (∀ m, (handle_async_message txAsyncSid tickRate ctxCode (Except.ok info)
        residual fifo).pushed = some m →
      m.channel = 0 ∧ m.event_code = ctxCode ∧
      m.has_time_spec = (info.has_tsi && info.has_tsf) ∧
      (handle_async_message txAsyncSid tickRate ctxCode (Except.ok info)
          residual fifo).fifo
        = push_with_pop_on_full asyncMsgFifoCapacity fifo m) ∧
    (¬ (info.sid = txAsyncSid ∧ info.packet_type ≠ PacketType.data) →
      (handle_async_message txAsyncSid tickRate ctxCode (Except.ok info)
          residual fifo).pushed = none ∧
      (handle_async_message txAsyncSid tickRate ctxCode (Except.ok info)
          residual fifo).fifo = fifo ∧
      (handle_async_message txAsyncSid tickRate ctxCode (Except.ok info)
          residual fifo).unknown_reported = true) := by
  by_cases hcond : info.sid = txAsyncSid ∧ info.packet_type ≠ PacketType.data
  · refine ⟨?_, ?_, fun hn => absurd hcond hn⟩
    · simp [handle_async_message, hcond]
    · intro m hm
      simp [handle_async_message, hcond] at hm
      subst hm
      simp [handle_async_message, hcond]
  · refine ⟨?_, ?_, ?_⟩
    · simp [handle_async_message, hcond]
    · intro m hm
      simp [handle_async_message, hcond] at hm
    · intro _
      simp [handle_async_message, hcond]

theorem C7_async_record_iff_witness :
    ((handle_async_message 5 64 3 (Except.ok
        ⟨PacketType.ifContext, 5, true, true, 11, 13⟩)
        ⟨PacketType.data, 0, false, false, 0, 0⟩ []).pushed.isSome
      ↔ ((5 : Nat) = 5 ∧ PacketType.ifContext ≠ PacketType.data)) ∧
    (∀ m, (handle_async_message 5 64 3 (Except.ok
        ⟨PacketType.ifContext, 5, true, true, 11, 13⟩)
        ⟨PacketType.data, 0, false, false, 0, 0⟩ []).pushed = some m →
      m.channel = 0 ∧ m.event_code = 3 ∧
      m.has_time_spec = (true && true) ∧
      (handle_async_message 5 64 3 (Except.ok
          ⟨PacketType.ifContext, 5, true, true, 11, 13⟩)
          ⟨PacketType.data, 0, false, false, 0, 0⟩ []).fifo
        = push_with_pop_on_full asyncMsgFifoCapacity [] m) ∧
    (¬ ((5 : Nat) = 5 ∧ PacketType.ifContext ≠ PacketType.data) →
      (handle_async_message 5 64 3 (Except.ok
          ⟨PacketType.ifContext, 5, true, true, 11, 13⟩)
          ⟨PacketType.data, 0, false, false, 0, 0⟩ []).pushed = none ∧
      (handle_async_message 5 64 3 (Except.ok
          ⟨PacketType.ifContext, 5, true, true, 11, 13⟩)
          ⟨PacketType.data, 0, false, false, 0, 0⟩ []).fifo = [] ∧
      (handle_async_message 5 64 3 (Except.ok
          ⟨PacketType.ifContext, 5, true, true, 11, 13⟩)
          ⟨PacketType.data, 0, false, false, 0, 0⟩
        []).unknown_reported = true) := by
  exact C7_async_record_iff 5 64 3
    ⟨PacketType.ifContext, 5, true, true, 11, 13⟩
    ⟨PacketType.data, 0, false, false, 0, 0⟩ []

/-- Claim C8: both per-packet sample bounds follow the spec formula
`(transportPacketSize - headerOverhead) / sampleSize` with
`transportPacketSize = 2048` bytes; the send overhead is the maximum
header size in bytes minus the unused class-id field, the receive overhead
additionally includes the mandatory trailer, and therefore for equal
sample sizes the receive bound never exceeds the send bound. -/
theorem C8_max_samps_per_packet
    (maxIfHdrWords32 tlrSize cidSize sampleSize : Nat)
    (hcid : cidSize ≤ maxIfHdrWords32 * 4) :
    get_max_send_samps_per_packet maxIfHdrWords32 cidSize sampleSize
      = maxSamplesPerPacketSpec 2048 (maxIfHdrWords32 * 4 - cidSize)
          sampleSize ∧
    get_max_recv_samps_per_packet maxIfHdrWords32 tlrSize cidSize sampleSize
      = maxSamplesPerPacketSpec 2048
          (maxIfHdrWords32 * 4 + tlrSize - cidSize) sampleSize ∧
    get_max_recv_samps_per_packet maxIfHdrWords32 tlrSize cidSize sampleSize
      ≤ get_max_send_samps_per_packet maxIfHdrWords32 cidSize
          sampleSize := by
  refine ⟨rfl, rfl, ?_⟩
  unfold get_max_recv_samps_per_packet get_max_send_samps_per_packet
  apply Nat.div_le_div_right
  apply Nat.sub_le_sub_left
  omega

theorem C8_max_samps_per_packet_witness :
    (8 : Nat) ≤ 7 * 4 ∧
    get_max_send_samps_per_packet 7 8 4
      = maxSamplesPerPacketSpec 2048 (7 * 4 - 8) 4 ∧
    get_max_recv_samps_per_packet 7 4 8 4
      = maxSamplesPerPacketSpec 2048 (7 * 4 + 4 - 8) 4 ∧
    get_max_recv_samps_per_packet 7 4 8 4
      ≤ get_max_send_samps_per_packet 7 8 4 := by
  exact ⟨by decide, C8_max_samps_per_packet 7 4 8 4 (by decide)⟩

/-- Claim C9: in `get_recv_buff` the target index is the unsigned
difference `sid - B100_RX_SID_BASE` in `size_t` arithmetic: whenever a
delivered packet's stream id is numerically below the receive SID base,
the subtraction wraps modulo `2 ^ 64` to a value at least
`2 ^ 64 - base`, which fails the `rx_index < _buffs_queue.size()` bounds
check (for any realistic channel count), so the buffer is discarded with
an error report, no channel queue is indexed, and the loop continues. -/
theorem C9_sid_below_base_wraps (base cap index : Nat)
    (queues : List (List Buff)) (b : Buff) (rest : List Buff)
    (hsid : b.sid < base) (hbase : base + queues.length ≤ sizeTMod)
    (hq : queues.getD index [] = []) (hidx : index < queues.length) :
    sizeTMod - base ≤ rxIndexOf b.sid base ∧
    ¬ rxIndexOf b.sid base < queues.length ∧
    get_recv_buff base cap index queues (b :: rest)
      = ⟨(get_recv_buff base cap index queues rest).buff,
          (get_recv_buff base cap index queues rest).queues,
          (get_recv_buff base cap index queues rest).transport,
          b.sid :: (get_recv_buff base cap index queues rest).errors⟩ := by
  have hble : base ≤ sizeTMod := le_trans (Nat.le_add_right _ _) hbase
  have hmod : rxIndexOf b.sid base = sizeTMod + b.sid - base := by
    unfold rxIndexOf
    apply Nat.mod_eq_of_lt
    omega
  have hlarge : sizeTMod - base ≤ rxIndexOf b.sid base := by
    rw [hmod]; omega
  have hout : ¬ rxIndexOf b.sid base < queues.length := by
    rw [hmod]; omega
  have hne : rxIndexOf b.sid base ≠ index := by
    intro hcontra
    rw [hcontra] at hout
    exact hout hidx
  exact ⟨hlarge, hout, get_recv_buff_step_error rest hq hne hout⟩

theorem C9_sid_below_base_wraps_witness :
    (1 : Nat) < 2 ∧ 2 + ([[], []] : List (List Buff)).length ≤ sizeTMod ∧
    (sizeTMod - 2 ≤ rxIndexOf 1 2 ∧
    ¬ rxIndexOf 1 2 < ([[], []] : List (List Buff)).length ∧
    get_recv_buff 2 8 0 [[], []] [⟨1, 5⟩]
      = ⟨(get_recv_buff 2 8 0 [[], []] []).buff,
          (get_recv_buff 2 8 0 [[], []] []).queues,
          (get_recv_buff 2 8 0 [[], []] []).transport,
          1 :: (get_recv_buff 2 8 0 [[], []] []).errors⟩) := by
  refine ⟨by decide, by norm_num [sizeTMod], ?_⟩
  exact C9_sid_below_base_wraps 2 8 0 [[], []] ⟨1, 5⟩ []
    (by decide) (by norm_num [sizeTMod]) rfl (by decide)

/-- Claim C10: `update_tx_subdev_spec` reads `spec[0]` unconditionally to
program the transmit mux, with no emptiness guard in the function itself
(the spec-modelled validation accepts an empty spec, since an empty spec
references no nonexistent sub-device): a non-empty spec is a precondition
for the first-entry access to be in bounds, an empty spec makes it out of
range, and every validated non-empty spec succeeds. -/
theorem C10_tx_empty_spec_out_of_range (tree : List String → String)
    (valid : SubdevPair → Bool) :
    update_tx_subdev_spec tree valid [] = Except.error .indexOutOfRange ∧
    (∀ spec : List SubdevPair, spec ≠ [] →
      validate_subdev_spec valid spec = true →
      ∃ r, update_tx_subdev_spec tree valid spec = Except.ok r) := by
  constructor
  · rfl
  · intro spec hne hv
    cases spec with
    | nil => exact absurd rfl hne
    | cons e0 rest =>
      refine ⟨⟨[tree (tx_fe_conn_path e0)], (e0 :: rest).length⟩, ?_⟩
      rw [update_tx_subdev_spec, if_pos hv]

theorem C10_tx_empty_spec_out_of_range_witness :
    update_tx_subdev_spec (fun _ => "c") (fun _ => true) []
      = Except.error .indexOutOfRange ∧
    (([(⟨"dbA", "sdX"⟩ : SubdevPair)] : List SubdevPair) ≠ [] ∧
      validate_subdev_spec (fun _ => true) [⟨"dbA", "sdX"⟩] = true ∧
      ∃ r, update_tx_subdev_spec (fun _ => "c") (fun _ => true)
        [⟨"dbA", "sdX"⟩] = Except.ok r) := by
  have h := C10_tx_empty_spec_out_of_range (fun _ => "c") (fun _ => true)
  exact ⟨h.1, by simp, by decide,
    h.2 [⟨"dbA", "sdX"⟩] (by simp) (by decide)⟩

end B100
